import Mathlib

/-!
Verification development for the `owa_checker` repository.

The definitions below are a shallow embedding of the state-tracking logic of
`owa_checker.py` (class `OWACheck`): the calendar reminder tracker
(`check_calendar`, `issue_reminders`), the mail poller (`check_mail`), the
shared retry counter, and the colon-separated line protocol written to the
status-icon process.

Modelling conventions:
* Timestamps (UTC datetimes and `receivedDateTime` strings, which the source
  compares with `==`/`>`; ISO-8601 strings compare chronologically) are
  modelled as `Int` seconds.
* The tracker dictionary `self.reminders` is an association list with
  Python-dict semantics: `insertA` updates in place or appends, `eraseA`
  removes an entry, and single-argument `dict.pop` (which raises `KeyError`
  when the key is absent) is `popA` returning `Option`; `check_calendar`
  therefore returns `Option Tracker`, `none` modelling the uncaught
  `KeyError`.
* Remote calls are passed in as already-produced results
  (`Except Unit α`, `.error` modelling `o365Error`).
* Commands written with `statusicon_communicate` are modelled by the
  inductive `IconCmd`; the raw popup line (with its escaping) is modelled
  separately at character level by `popupLineChars`.
-/

namespace OwaCheck

/-- `MAX_RETRIES` from owa_checker.py. -/
def MAX_RETRIES : Nat := 5

/-- `MAIL_POPUP_LIMIT` from owa_checker.py. -/
def MAIL_POPUP_LIMIT : Nat := 4

/-- One value of the `self.reminders` dict:
`[issued, reminder_time, start, subject, location]`. -/
structure Entry where
  issued : Bool
  reminderTime : Int
  start : Int
  subject : Option String
  location : Option String
deriving DecidableEq

/-- One element of `events["value"]` as used by `check_calendar`
(start already parsed to a timestamp). -/
structure Event where
  id : String
  isReminderOn : Bool
  isCancelled : Bool
  start : Int
  reminderMinutesBeforeStart : Int
  subject : Option String
  locationDisplayName : Option String
deriving DecidableEq

/-- The reminder tracker `self.reminders`, as an association list. -/
abbrev Tracker := List (String × Entry)

/-- Keys of the tracker dictionary. -/
def keysOf (l : Tracker) : List String := l.map Prod.fst

/-- Dictionary membership test / read (`event["id"] in self.reminders`,
`self.reminders[k]`). -/
def lookupA : Tracker → String → Option Entry
  | [], _ => none
  | (k, v) :: t, key => if k = key then some v else lookupA t key

/-- Dictionary write `self.reminders[k] = v` (update in place, else append). -/
def insertA : Tracker → String → Entry → Tracker
  | [], key, v => [(key, v)]
  | (k, w) :: t, key, v =>
    if k = key then (k, v) :: t else (k, w) :: insertA t key v

/-- Removal of the entry with the given key (helper for `popA`). -/
def eraseA : Tracker → String → Tracker
  | [], _ => []
  | (k, w) :: t, key => if k = key then t else (k, w) :: eraseA t key

/-- Single-argument `dict.pop(k)`: `none` models the `KeyError` raised when
the key is absent. -/
def popA (l : Tracker) (key : String) : Option Tracker :=
  if (lookupA l key).isSome then some (eraseA l key) else none

/-- The entry created/updated for a qualifying event:
`[False, reminder_time, start, subject, location]` with
`reminder_time = start - timedelta(minutes=reminder)`. -/
def newEntry (e : Event) : Entry :=
  { issued := false
    reminderTime := e.start - e.reminderMinutesBeforeStart * 60
    start := e.start
    subject := e.subject
    location := e.locationDisplayName }

/-- The body of the `for event in events["value"]` loop of `check_calendar`,
acting on the pair (copied dict `reminders`, main dict `self.reminders`). -/
def processEvent (now : Int) (st : Tracker × Tracker) (e : Event) :
    Option (Tracker × Tracker) :=
  if !e.isReminderOn || e.isCancelled then some st
  else
    match lookupA st.2 e.id with
    | some old =>
      match popA st.1 e.id with
      | none => none
      | some copy1 =>
        if old.issued then some (copy1, st.2)
        else if now > e.start then some (copy1, st.2)
        else some (copy1, insertA st.2 e.id (newEntry e))
    | none =>
      if now > e.start then some st
      else some (st.1, insertA st.2 e.id (newEntry e))

/-- The whole event loop of `check_calendar`. -/
def processEvents (now : Int) : Tracker × Tracker → List Event →
    Option (Tracker × Tracker)
  | st, [] => some st
  | st, e :: rest =>
    match processEvent now st e with
    | none => none
    | some st1 => processEvents now st1 rest

/-- The final loop `for reminder in reminders: self.reminders.pop(reminder)`
removing events still present in the copied dict from the main dict. -/
def removeStale : Tracker → Tracker → Option Tracker
  | [], main => some main
  | (k, _) :: rest, main =>
    match popA main k with
    | none => none
    | some main1 => removeStale rest main1

/-- `OWACheck.check_calendar` (owa_checker.py lines 235-312), given the
already-fetched event list.  Takes a copy of the tracker, folds the event
loop over the pair (copy, main), then — only when the fetched list is
nonempty (`if events["value"]:`) — removes the ids left in the copy from the
main dict.  `none` models an uncaught `KeyError` from `dict.pop`. -/
def check_calendar (R : Tracker) (events : List Event) (now : Int) :
    Option Tracker :=
  match processEvents now (R, R) events with
  | none => none
  | some (copy, main) =>
    if events.isEmpty then some main else removeStale copy main

/-- The fire event produced for one due reminder: the spawned
`calendar_popup.py` command argument (minutes) plus the environment values,
tagged with the id of the tracker entry that produced it. -/
structure FireEvent where
  eventId : String
  minutes : Int
  subject : String
  location : String
deriving DecidableEq

/-- `if subject is None or subject == "": subject = "Untitled Meeting"`. -/
def substSubject : Option String → String
  | none => "Untitled Meeting"
  | some s => if s = "" then "Untitled Meeting" else s

/-- `if location is None or location == "": location = "No Location Set"`. -/
def substLocation : Option String → String
  | none => "No Location Set"
  | some s => if s = "" then "No Location Set" else s

/-- `reminder_mins = start - current_time;
int(reminder_mins.days * 1440 + reminder_mins.seconds / 60 + 1)`:
Python `timedelta` normalises to `days = d // 86400`,
`seconds = d % 86400` (floor division, nonnegative remainder). -/
def reminderMins (start now : Int) : Int :=
  let d := start - now
  Int.fdiv d 86400 * 1440 + Int.fdiv (Int.fmod d 86400) 60 + 1

/-- The fire event emitted for entry `(k, e)` at time `now`. -/
def fireEventOf (k : String) (e : Entry) (now : Int) : FireEvent :=
  { eventId := k
    minutes := reminderMins e.start now
    subject := substSubject e.subject
    location := substLocation e.location }

/-- `OWACheck.issue_reminders` (owa_checker.py lines 314-362): walks the
tracker; skips issued entries; for entries with
`current_time >= reminder_time` spawns the popup and sets the issued flag.
Returns the updated tracker and the list of fire events in iteration
order. -/
def issue_reminders : Tracker → Int → Tracker × List FireEvent
  | [], _ => ([], [])
  | (k, e) :: rest, now =>
    let p := issue_reminders rest now
    if e.issued then ((k, e) :: p.1, p.2)
    else if now ≥ e.reminderTime then
      ((k, { e with issued := true }) :: p.1, fireEventOf k e now :: p.2)
    else ((k, e) :: p.1, p.2)

/-- One message returned by `o365_api.get_new_messages`:
`receivedDateTime` (ISO string, modelled as `Int`), the sender record
`message["from"]["emailAddress"]` (its `name` accessed directly, its
`address` via `.get` with a default), and the possibly-missing subject. -/
structure Message where
  receivedDateTime : Int
  senderName : String
  senderAddress : Option String
  subject : Option String
deriving DecidableEq

/-- One command written to the status-icon process via
`statusicon_communicate`. -/
inductive IconCmd where
  | nMsgs (n : Nat)
  | blink (isOn : Bool)
  | popup (sender subject address : String)
  | popupFurther
  | flush
deriving DecidableEq

/-- Mutable poller state of the `OWACheck` instance used by `check_mail`. -/
structure MailState where
  check_mail_last : Option Int
  n_msgs_last : Nat
  retries : Nat
deriving DecidableEq

/-- How one `check_mail` call ended: ran to the final
`statusicon_communicate` (`completed`), returned early after a transient
failure (`skipped`), or called `self.cleanup()` (`fatal`). -/
inductive MailOutcome where
  | completed
  | skipped
  | fatal
deriving DecidableEq

/-- Result of one `check_mail` call: the new instance state, the commands
written to the status icon, and how the call ended. -/
structure MailResult where
  state : MailState
  cmds : List IconCmd
  outcome : MailOutcome
deriving DecidableEq

/-- The popup command for one message: sender name, subject (with the
`"(No Subject)"` substitution for `None`), and
`sender.get("address", "(No Address)")`. -/
def msgPopupCmd (m : Message) : IconCmd :=
  IconCmd.popup m.senderName
    (match m.subject with
     | none => "(No Subject)"
     | some s => s)
    (m.senderAddress.getD "(No Address)")

/-- The `for imessage, message in enumerate(messages)` popup loop: skip a
message whose timestamp equals `check_mail_last`, break when the enumerate
index reaches `MAIL_POPUP_LIMIT`, otherwise switch the blinker on and issue
the popup. -/
def popupLoop (last : Option Int) : Nat → List Message → List IconCmd
  | _, [] => []
  | i, m :: rest =>
    if last = some m.receivedDateTime then popupLoop last (i + 1) rest
    else if i = MAIL_POPUP_LIMIT then []
    else IconCmd.blink true :: msgPopupCmd m :: popupLoop last (i + 1) rest

/-- `most_recent = messages[0][...]` then a loop keeping the strictly
greater timestamp. -/
def mostRecent : Int → List Message → Int
  | cur, [] => cur
  | cur, m :: rest =>
    mostRecent (if m.receivedDateTime > cur then m.receivedDateTime else cur)
      rest

/-- The high-water-mark update (owa_checker.py lines 220-230): only when the
message list is nonempty (`if messages:`), and only when the maximum
timestamp strictly exceeds the stored one (or none is stored yet). -/
def updateLast (last : Option Int) : List Message → Option Int
  | [] => last
  | m :: rest =>
    let mr := mostRecent m.receivedDateTime rest
    match last with
    | none => some mr
    | some t => if mr > t then some mr else some t

/-- The unread-count commands sent right after a successful count fetch:
the `status:n_msgs:` update, plus `status:blink:0` when the count fell. -/
def statusCmds (s : MailState) (n : Nat) : List IconCmd :=
  IconCmd.nMsgs n ::
    (if n < s.n_msgs_last then [IconCmd.blink false] else [])

/-- The popup block (`if not quiet and messages:`): the per-message loop
followed by the "Plus further message(s)..." popup when
`len(messages) >= MAIL_POPUP_LIMIT`. -/
def popupCmds (last : Option Int) (quiet : Bool) (msgs : List Message) :
    List IconCmd :=
  if quiet = false ∧ msgs ≠ [] then
    popupLoop last 0 msgs ++
      (if MAIL_POPUP_LIMIT ≤ msgs.length then [IconCmd.popupFurther] else [])
  else []

/-- `OWACheck.check_mail` (owa_checker.py lines 124-233), given the results
of the two remote calls (`get_num_messages`, `get_new_messages`); the second
result is only consulted when the unread count is positive, matching
`if n_msgs > 0`.  The config-file mtime reload (pure I/O) is not modelled. -/
def check_mail (s : MailState) (quiet : Bool) (numResult : Except Unit Nat)
    (msgsResult : Except Unit (List Message)) : MailResult :=
  match numResult with
  | .error _ =>
    let s1 := { s with retries := s.retries + 1 }
    if s1.retries ≤ MAX_RETRIES then ⟨s1, [], .skipped⟩ else ⟨s1, [], .fatal⟩
  | .ok n =>
    let s1 := { s with retries := 0 }
    let s2 := { s1 with n_msgs_last := n }
    if n > 0 then
      match msgsResult with
      | .error _ =>
        let s3 := { s2 with retries := s2.retries + 1 }
        if s3.retries ≤ MAX_RETRIES then ⟨s3, statusCmds s n, .skipped⟩
        else ⟨s3, statusCmds s n, .fatal⟩
      | .ok msgs =>
        let s3 := { s2 with retries := 0 }
        let s4 :=
          { s3 with check_mail_last := updateLast s3.check_mail_last msgs }
        ⟨s4, statusCmds s n ++ popupCmds s.check_mail_last quiet msgs ++
          [IconCmd.flush], .completed⟩
    else
      ⟨s2, statusCmds s n ++ [IconCmd.flush], .completed⟩

/-- The inputs of one `check_mail` call (one poll). -/
structure PollInput where
  quiet : Bool
  numResult : Except Unit Nat
  msgsResult : Except Unit (List Message)

/-- Thread the poller state through a sequence of `check_mail` calls. -/
def runPolls : MailState → List PollInput → MailState
  | s, [] => s
  | s, p :: rest =>
    runPolls (check_mail s p.quiet p.numResult p.msgsResult).state rest

/-- Comparison on the nullable high-water mark: `none` (initial state) is
below everything. -/
def optLE : Option Int → Option Int → Prop
  | none, _ => True
  | some _, none => False
  | some a, some b => a ≤ b

/-- Outcome of one remote API call. -/
inductive CallOutcome where
  | success
  | failure
deriving DecidableEq

/-- What the checker does next after a remote call: carry on with the
cycle, `return` (skip the rest of the cycle), or `self.cleanup()`. -/
inductive RetryAction where
  | proceed
  | skipCycle
  | shutdown
deriving DecidableEq

/-- The shared retry-counter pattern around every remote call in
`check_mail` (lines 136-150 and 165-180) and `check_calendar`
(lines 248-260): success resets `self.retries` to zero, failure increments
it and either skips the cycle (`return`) or, past `MAX_RETRIES`, shuts the
checker down. -/
def retryStep : Nat → CallOutcome → Nat × RetryAction
  | _, .success => (0, .proceed)
  | r, .failure =>
    (r + 1, if r + 1 ≤ MAX_RETRIES then .skipCycle else .shutdown)

/-- `s.replace(":", "\\:")` at character level: each colon becomes a
backslash followed by a colon. -/
def escapeColons : List Char → List Char
  | [] => []
  | c :: rest =>
    if c = ':' then '\\' :: ':' :: escapeColons rest
    else c :: escapeColons rest

/-- The popup line written for one mail message:
`"popup:{0:s}:{1:s}:{2:s}\n".format(name.replace(...), subject.replace(...),
address)` — the sender name and subject are colon-escaped, the address is
interpolated as-is. -/
def popupLineChars (sender subject address : List Char) : List Char :=
  "popup:".toList ++ escapeColons sender ++ [':'] ++ escapeColons subject ++
    [':'] ++ address ++ ['\n']

/-- Last character of a scanned prefix (`none` before any input). -/
def lastc : Option Char → List Char → Option Char
  | p, [] => p
  | _, c :: rest => lastc (some c) rest

/-- Number of field separators: colons not preceded by a backslash, as in
the receiving side's split on the pattern colon-without-preceding-backslash
(status_icon.py line 296). -/
def countSep : Option Char → List Char → Nat
  | _, [] => 0
  | p, c :: rest =>
    (if c = ':' ∧ p ≠ some '\\' then 1 else 0) + countSep (some c) rest

/-- Split on colons not preceded by a backslash, as the status-icon process
does to recover the fields of a command line. -/
def splitUnesc : Option Char → List Char → List Char → List (List Char)
  | _, acc, [] => [acc.reverse]
  | p, acc, c :: rest =>
    if c = ':' ∧ p ≠ some '\\' then
      acc.reverse :: splitUnesc (some c) [] rest
    else splitUnesc (some c) (c :: acc) rest

/-- The field structure the status-icon process sees for a line. -/
def splitFields (line : List Char) : List (List Char) :=
  splitUnesc none [] line

/-- Modelled from the spec: minutes until start "rounded up to the next
whole minute", i.e. the ceiling of `d` seconds in minutes. -/
def specCeilMinutes (d : Int) : Int := Int.fdiv (d + 59) 60

/-! ### Concrete sample data used in witnesses and counterexamples -/

/-- A tracked, unfired entry (reminder due at 40, event starts at 100). -/
def entA : Entry := ⟨false, 40, 100, none, none⟩

/-- A tracked, unfired entry (reminder due at 140, event starts at 200). -/
def entB : Entry := ⟨false, 140, 200, none, none⟩

/-- A tracked, unfired entry with subject and location. -/
def entX : Entry := ⟨false, 440, 500, some "standup", some "room 1"⟩

/-- A qualifying event with id "B" starting at 200. -/
def evB : Event := ⟨"B", true, false, 200, 1, none, none⟩

/-- A cancelled reappearance of event id "X". -/
def evXCancelled : Event := ⟨"X", true, true, 500, 1, none, none⟩

/-- A message with the given timestamp. -/
def mkMsg (t : Int) : Message := ⟨t, "sender", some "s@x", some "subj"⟩

/-- A fresh poller state (no high-water mark, no unread, no retries). -/
def mailS0 : MailState := ⟨none, 0, 0⟩

/-- A poller state whose high-water mark is 99. -/
def mailS99 : MailState := ⟨some 99, 7, 0⟩

/-- `true` exactly for the individual per-message popup commands. -/
def isPopupCmd : IconCmd → Bool
  | .popup _ _ _ => true
  | _ => false

/-! ### Dictionary lemmas -/

theorem lookupA_eq_none_iff (l : Tracker) (k : String) :
    lookupA l k = none ↔ k ∉ keysOf l := by
  induction l with
  | nil => simp [lookupA, keysOf]
  | cons h t ih =>
    obtain ⟨k1, v⟩ := h
    by_cases hk : k1 = k
    · subst hk
      simp [lookupA, keysOf]
    · simp [lookupA, keysOf, hk, ih, Ne.symm hk]

theorem mem_keysOf_of_lookupA {l : Tracker} {k : String} {v : Entry}
    (h : lookupA l k = some v) : k ∈ keysOf l := by
  by_contra hmem
  rw [← lookupA_eq_none_iff] at hmem
  rw [hmem] at h
  exact Option.noConfusion h

theorem eraseA_sublist (l : Tracker) (k : String) :
    List.Sublist (eraseA l k) l := by
  induction l with
  | nil => simp [eraseA]
  | cons h t ih =>
    obtain ⟨k1, v⟩ := h
    by_cases hk : k1 = k
    · simp only [eraseA, if_pos hk]
      exact List.sublist_cons_self _ _
    · simp only [eraseA, if_neg hk]
      exact ih.cons₂ _

theorem keysOf_nodup_eraseA {l : Tracker} (k : String)
    (h : (keysOf l).Nodup) : (keysOf (eraseA l k)).Nodup :=
  (((eraseA_sublist l k).map Prod.fst)).nodup h

theorem lookupA_none_eraseA {l : Tracker} {X : String} (k : String)
    (h : lookupA l X = none) : lookupA (eraseA l k) X = none := by
  rw [lookupA_eq_none_iff] at h ⊢
  exact fun hmem => h (((eraseA_sublist l k).map Prod.fst).subset hmem)

theorem lookupA_eraseA_self {l : Tracker} (k : String)
    (h : (keysOf l).Nodup) : lookupA (eraseA l k) k = none := by
  induction l with
  | nil => simp [eraseA, lookupA]
  | cons hd t ih =>
    obtain ⟨k1, v⟩ := hd
    simp only [keysOf, List.map_cons, List.nodup_cons] at h
    by_cases hk : k1 = k
    · subst hk
      simp only [eraseA, if_pos rfl]
      rw [lookupA_eq_none_iff]
      exact h.1
    · simp only [eraseA, if_neg hk, lookupA]
      exact ih h.2

theorem lookupA_eraseA_ne {l : Tracker} {k k' : String} (hne : k' ≠ k) :
    lookupA (eraseA l k') k = lookupA l k := by
  induction l with
  | nil => simp [eraseA]
  | cons hd t ih =>
    obtain ⟨k1, v⟩ := hd
    by_cases hk : k1 = k'
    · subst hk
      simp [eraseA, lookupA, hne]
    · simp only [eraseA, if_neg hk, lookupA]
      by_cases hk2 : k1 = k
      · simp [hk2]
      · simp [hk2, ih]

theorem lookupA_insertA_ne {l : Tracker} {key k : String} (v : Entry)
    (hne : k ≠ key) : lookupA (insertA l key v) k = lookupA l k := by
  induction l with
  | nil => simp [insertA, lookupA, Ne.symm hne]
  | cons hd t ih =>
    obtain ⟨k1, w⟩ := hd
    by_cases hk : k1 = key
    · subst hk
      simp [insertA, lookupA, Ne.symm hne]
    · simp only [insertA, if_neg hk, lookupA]
      by_cases hk2 : k1 = k
      · simp [hk2]
      · simp [hk2, ih]

theorem mem_keysOf_insertA {l : Tracker} {key k : String} (v : Entry) :
    k ∈ keysOf (insertA l key v) ↔ k ∈ keysOf l ∨ k = key := by
  induction l with
  | nil => simp [insertA, keysOf]
  | cons hd t ih =>
    obtain ⟨k1, w⟩ := hd
    by_cases hk : k1 = key
    · subst hk
      simp only [keysOf, List.map_cons, List.mem_cons]
      have hi : insertA ((k1, w) :: t) k1 v = (k1, v) :: t := by
        simp [insertA]
      rw [hi]
      simp only [List.map_cons, List.mem_cons]
      constructor
      · exact fun h => Or.inl h
      · rintro (h | h)
        · exact h
        · exact Or.inl h
    · simp only [insertA, if_neg hk, keysOf, List.map_cons, List.mem_cons]
      have ht : (List.map Prod.fst (insertA t key v) : List String)
          = keysOf (insertA t key v) := rfl
      rw [ht, ih]
      tauto

theorem keysOf_nodup_insertA {l : Tracker} (key : String) (v : Entry)
    (h : (keysOf l).Nodup) : (keysOf (insertA l key v)).Nodup := by
  induction l with
  | nil => simp [insertA, keysOf]
  | cons hd t ih =>
    obtain ⟨k1, w⟩ := hd
    simp only [keysOf, List.map_cons, List.nodup_cons] at h
    by_cases hk : k1 = key
    · subst hk
      have hi : insertA ((k1, w) :: t) k1 v = (k1, v) :: t := by
        simp [insertA]
      rw [hi]
      simp only [keysOf, List.map_cons, List.nodup_cons]
      exact ⟨h.1, h.2⟩
    · simp only [insertA, if_neg hk, keysOf, List.map_cons, List.nodup_cons]
      refine ⟨fun hmem => ?_, ih h.2⟩
      have ht : (List.map Prod.fst (insertA t key v) : List String)
          = keysOf (insertA t key v) := rfl
      rw [ht, mem_keysOf_insertA] at hmem
      exact hmem.elim h.1 hk

/-! ### Reconciliation lemmas -/

/-- Through the event loop, for an id `X` whose events are all filtered out
(reminder off or cancelled) — in particular an id that occurs in no event —
both dicts keep their `X` binding unchanged, and key-nodup is preserved. -/
theorem processEvents_inv (now : Int) (X : String) :
    ∀ (evs : List Event) (st st' : Tracker × Tracker),
      (∀ e ∈ evs, e.id = X →
        e.isReminderOn = false ∨ e.isCancelled = true) →
      processEvents now st evs = some st' →
      (keysOf st.1).Nodup → (keysOf st.2).Nodup →
      ((keysOf st'.1).Nodup ∧ (keysOf st'.2).Nodup ∧
        lookupA st'.1 X = lookupA st.1 X ∧
        lookupA st'.2 X = lookupA st.2 X) := by
  intro evs
  induction evs with
  | nil =>
    intro st st' _ hp h1 h2
    simp only [processEvents, Option.some.injEq] at hp
    subst hp
    exact ⟨h1, h2, rfl, rfl⟩
  | cons e rest ih =>
    intro st st' hall hp h1 h2
    rcases hpe : processEvent now st e with _ | st1
    · rw [processEvents, hpe] at hp
      exact Option.noConfusion hp
    · rw [processEvents, hpe] at hp
      have hstep : (keysOf st1.1).Nodup ∧ (keysOf st1.2).Nodup ∧
          lookupA st1.1 X = lookupA st.1 X ∧
          lookupA st1.2 X = lookupA st.2 X := by
        by_cases hfil : (!e.isReminderOn || e.isCancelled) = true
        · rw [processEvent, if_pos hfil] at hpe
          cases hpe
          exact ⟨h1, h2, rfl, rfl⟩
        · have hne : e.id ≠ X := by
            intro hid
            rcases hall e (List.mem_cons_self e rest) hid with h | h
            · simp [h] at hfil
            · simp [h] at hfil
          rw [processEvent, if_neg hfil] at hpe
          rcases hlk : lookupA st.2 e.id with _ | old
          · simp only [hlk] at hpe
            by_cases hpast : now > e.start
            · rw [if_pos hpast] at hpe
              cases hpe
              exact ⟨h1, h2, rfl, rfl⟩
            · rw [if_neg hpast] at hpe
              cases hpe
              exact ⟨h1, keysOf_nodup_insertA e.id (newEntry e) h2, rfl,
                lookupA_insertA_ne (newEntry e) (Ne.symm hne)⟩
          · simp only [hlk] at hpe
            rcases hpop : popA st.1 e.id with _ | copy1
            · simp only [hpop] at hpe
              exact Option.noConfusion hpe
            · simp only [hpop] at hpe
              have hcopy1 : copy1 = eraseA st.1 e.id := by
                unfold popA at hpop
                by_cases hs : (lookupA st.1 e.id).isSome
                · rw [if_pos hs, Option.some.injEq] at hpop
                  exact hpop.symm
                · rw [if_neg hs] at hpop
                  exact Option.noConfusion hpop
              have hc1 : (keysOf copy1).Nodup := by
                rw [hcopy1]; exact keysOf_nodup_eraseA e.id h1
              have hc2 : lookupA copy1 X = lookupA st.1 X := by
                rw [hcopy1]; exact lookupA_eraseA_ne hne
              by_cases hiss : old.issued
              · rw [if_pos hiss] at hpe
                cases hpe
                exact ⟨hc1, h2, hc2, rfl⟩
              · rw [if_neg hiss] at hpe
                by_cases hpast : now > e.start
                · rw [if_pos hpast] at hpe
                  cases hpe
                  exact ⟨hc1, h2, hc2, rfl⟩
                · rw [if_neg hpast] at hpe
                  cases hpe
                  exact ⟨hc1, keysOf_nodup_insertA e.id (newEntry e) h2, hc2,
                    lookupA_insertA_ne (newEntry e) (Ne.symm hne)⟩
      obtain ⟨a1, a2, a3, a4⟩ := hstep
      have hrest := ih st1 st'
        (fun e1 he1 => hall e1 (List.mem_cons_of_mem _ he1)) hp a1 a2
      exact ⟨hrest.1, hrest.2.1, hrest.2.2.1.trans a3, hrest.2.2.2.trans a4⟩

/-- The final removal loop never re-adds a key: absence of `X` is
preserved. -/
theorem removeStale_preserve_none (X : String) :
    ∀ (copy main main' : Tracker),
      removeStale copy main = some main' →
      lookupA main X = none → lookupA main' X = none := by
  intro copy
  induction copy with
  | nil =>
    intro main main' h hX
    simp only [removeStale, Option.some.injEq] at h
    subst h
    exact hX
  | cons hd rest ih =>
    intro main main' h hX
    obtain ⟨k, w⟩ := hd
    rcases hpop : popA main k with _ | main1
    · rw [removeStale, hpop] at h
      exact Option.noConfusion h
    · rw [removeStale, hpop] at h
      have hmain1 : main1 = eraseA main k := by
        unfold popA at hpop
        by_cases hs : (lookupA main k).isSome
        · rw [if_pos hs, Option.some.injEq] at hpop
          exact hpop.symm
        · rw [if_neg hs] at hpop
          exact Option.noConfusion hpop
      exact ih main1 main' h (hmain1 ▸ lookupA_none_eraseA k hX)

/-- The final removal loop removes every key still present in the copied
dict from the main dict. -/
theorem removeStale_removes (X : String) :
    ∀ (copy main main' : Tracker),
      (keysOf main).Nodup →
      removeStale copy main = some main' →
      X ∈ keysOf copy → lookupA main' X = none := by
  intro copy
  induction copy with
  | nil =>
    intro main main' _ _ hmem
    simp [keysOf] at hmem
  | cons hd rest ih =>
    intro main main' hnd h hmem
    obtain ⟨k, w⟩ := hd
    rcases hpop : popA main k with _ | main1
    · rw [removeStale, hpop] at h
      exact Option.noConfusion h
    · rw [removeStale, hpop] at h
      have hmain1 : main1 = eraseA main k := by
        unfold popA at hpop
        by_cases hs : (lookupA main k).isSome
        · rw [if_pos hs, Option.some.injEq] at hpop
          exact hpop.symm
        · rw [if_neg hs] at hpop
          exact Option.noConfusion hpop
      simp only [keysOf, List.map_cons, List.mem_cons] at hmem
      rcases hmem with hmem | hmem
      · subst hmem
        have hgone : lookupA main1 X = none := by
          rw [hmain1]
          exact lookupA_eraseA_self X hnd
        exact removeStale_preserve_none X rest main1 main' h hgone
      · exact ih main1 main' (hmain1 ▸ keysOf_nodup_eraseA k hnd) h hmem

/-- Core removal property of `check_calendar`: with a nonempty fetched list,
an id all of whose occurrences in the input are non-qualifying (in
particular, an id that does not occur at all) is absent from the resulting
tracker. -/
theorem reconcile_removes {R : Tracker} {evs : List Event} {now : Int}
    {R' : Tracker} (X : String)
    (hnd : (keysOf R).Nodup)
    (hne : evs ≠ [])
    (hall : ∀ e ∈ evs, e.id = X →
      e.isReminderOn = false ∨ e.isCancelled = true)
    (hok : check_calendar R evs now = some R') :
    lookupA R' X = none := by
  rcases hp : processEvents now (R, R) evs with _ | st
  · rw [check_calendar, hp] at hok
    exact Option.noConfusion hok
  · obtain ⟨copy, main⟩ := st
    simp only [check_calendar, hp] at hok
    rw [if_neg (by simpa using hne)] at hok
    obtain ⟨hc1, hc2, hl1, hl2⟩ :=
      processEvents_inv now X evs (R, R) (copy, main) hall hp hnd hnd
    rcases hRX : lookupA R X with _ | v
    · exact removeStale_preserve_none X copy main R' hok (by rw [hl2]; exact hRX)
    · refine removeStale_removes X copy main R' hc2 hok ?_
      exact mem_keysOf_of_lookupA (by rw [hl1]; exact hRX)

/-! ### Reminder-firing lemmas -/

theorem issue_reminders_cons (k : String) (e : Entry) (rest : Tracker)
    (now : Int) :
    issue_reminders ((k, e) :: rest) now =
      if e.issued then
        ((k, e) :: (issue_reminders rest now).1, (issue_reminders rest now).2)
      else if now ≥ e.reminderTime then
        ((k, { e with issued := true }) :: (issue_reminders rest now).1,
          fireEventOf k e now :: (issue_reminders rest now).2)
      else
        ((k, e) :: (issue_reminders rest now).1,
          (issue_reminders rest now).2) := rfl

/-- Every emitted fire event comes from a tracked entry that was unfired
and due. -/
theorem fire_events_sound (R : Tracker) (now : Int) :
    ∀ f ∈ (issue_reminders R now).2, ∃ k e, (k, e) ∈ R ∧ e.issued = false ∧
      e.reminderTime ≤ now ∧ f = fireEventOf k e now := by
  induction R with
  | nil =>
    intro f hf
    simp [issue_reminders] at hf
  | cons hd rest ih =>
    obtain ⟨k, e⟩ := hd
    intro f hf
    rw [issue_reminders_cons] at hf
    by_cases hiss : e.issued = true
    · rw [if_pos hiss] at hf
      obtain ⟨k1, e1, hmem, h1, h2, h3⟩ := ih f hf
      exact ⟨k1, e1, List.mem_cons_of_mem _ hmem, h1, h2, h3⟩
    · rw [if_neg hiss] at hf
      by_cases hdue : now ≥ e.reminderTime
      · rw [if_pos hdue] at hf
        rcases List.mem_cons.mp hf with hf | hf
        · exact ⟨k, e, List.mem_cons_self _ _,
            Bool.not_eq_true e.issued ▸ hiss, hdue, hf⟩
        · obtain ⟨k1, e1, hmem, h1, h2, h3⟩ := ih f hf
          exact ⟨k1, e1, List.mem_cons_of_mem _ hmem, h1, h2, h3⟩
      · rw [if_neg hdue] at hf
        obtain ⟨k1, e1, hmem, h1, h2, h3⟩ := ih f hf
        exact ⟨k1, e1, List.mem_cons_of_mem _ hmem, h1, h2, h3⟩

/-- The event id of every emitted fire event is a key of the tracker. -/
theorem fire_events_key_mem {R : Tracker} {now : Int} {f : FireEvent}
    (hf : f ∈ (issue_reminders R now).2) : f.eventId ∈ keysOf R := by
  obtain ⟨k, e, hmem, _, _, hfe⟩ := fire_events_sound R now f hf
  subst hfe
  exact List.mem_map_of_mem Prod.fst hmem

/-- `check_mail`-style minutes arithmetic: the Python
`days * 1440 + seconds / 60 + 1` over the normalised timedelta equals one
plus the floor division of the whole difference by 60. -/
theorem reminderMins_eq_fdiv (start now : Int) :
    reminderMins start now = Int.fdiv (start - now) 60 + 1 := by
  show (start - now).fdiv 86400 * 1440 +
      ((start - now).fmod 86400).fdiv 60 + 1 = Int.fdiv (start - now) 60 + 1
  have h86 : (0 : Int) ≤ 86400 := by decide
  have h60 : (0 : Int) ≤ 60 := by decide
  rw [Int.fmod_def, Int.fdiv_eq_ediv _ h86, Int.fdiv_eq_ediv _ h60,
    Int.fdiv_eq_ediv _ h60]
  have hrw : start - now - 86400 * ((start - now) / 86400) =
      start - now + -1440 * ((start - now) / 86400) * 60 := by ring
  rw [hrw, Int.add_mul_ediv_right _ _ (by decide : (60 : Int) ≠ 0)]
  ring

/-- No fire event is emitted for a key that is not tracked. -/
theorem fire_events_filter_notmem {R : Tracker} {now : Int} {k : String}
    (h : k ∉ keysOf R) :
    (issue_reminders R now).2.filter (fun f => f.eventId = k) = [] := by
  rw [List.filter_eq_nil_iff]
  intro f hf
  simp only [decide_eq_true_eq]
  intro hfk
  exact h (hfk ▸ fire_events_key_mem hf)

/-! ### Claim C1 -/

/-- **C1** (amended).  Reconcile diff correctness, as the code implements
it: when the reconcile call completes and the fetched event list is
nonempty, every `event_id` present in the tracker before the call but
absent from the input event list is removed; when the fetched event list is
empty the removal pass is skipped (`if events["value"]:`) and the tracker
is returned unchanged. -/
theorem reconcile_diff_removal (R : Tracker) (evs : List Event) (now : Int)
    (R' : Tracker) (X : String)
    (hnd : (keysOf R).Nodup)
    (hok : check_calendar R evs now = some R') :
    (evs = [] → R' = R) ∧
    (evs ≠ [] → X ∈ keysOf R → X ∉ evs.map Event.id →
      lookupA R' X = none) := by
  constructor
  · intro h
    subst h
    have hcc : check_calendar R [] now = some R := rfl
    rw [hcc, Option.some.injEq] at hok
    exact hok.symm
  · intro hne _ hnotin
    refine reconcile_removes X hnd hne ?_ hok
    intro e he hid
    exact absurd (hid ▸ List.mem_map_of_mem Event.id he) hnotin

/-- **C1 counterexample.**  The claim as stated (removal also for an empty
input list) is false: a tracker holding id "A", reconciled against the
empty fetched list, still holds "A" afterwards. -/
theorem reconcile_empty_input_keeps_entry :
    check_calendar [("A", entA)] [] 0 = some [("A", entA)] ∧
    lookupA [("A", entA)] "A" = some entA := by
  exact ⟨rfl, by decide⟩

/-- Witness for C1's amended theorem at a concrete input: tracker {A, B},
fetched list containing only B; A is removed. -/
theorem reconcile_diff_removal_witness :
    check_calendar [("A", entA), ("B", entB)] [evB] 0
        = some [("B", newEntry evB)] ∧
    lookupA [("B", newEntry evB)] "A" = none :=
  ⟨by decide,
    (reconcile_diff_removal [("A", entA), ("B", entB)] [evB] 0
        [("B", newEntry evB)] "A" (by decide) (by decide)).2
      (by decide) (by decide) (by decide)⟩

/-! ### Claim C4 -/

/-- **C4.**  Cancellation removal: if every occurrence of id `X` in the
fetched list is cancelled or has its reminder disabled — and at least one
such occurrence exists — then after a completing reconcile the tracker does
not contain `X`: a previously tracked (unfired or fired) entry is dropped,
and a previously untracked `X` is not newly tracked.  No fire event is
involved (`check_calendar` emits none). -/
theorem cancelled_event_removed (R : Tracker) (evs : List Event) (now : Int)
    (R' : Tracker) (X : String)
    (hnd : (keysOf R).Nodup)
    (hX : X ∈ evs.map Event.id)
    (hall : ∀ e ∈ evs, e.id = X →
      e.isCancelled = true ∨ e.isReminderOn = false)
    (hok : check_calendar R evs now = some R') :
    lookupA R' X = none := by
  have hne : evs ≠ [] := by
    intro h
    subst h
    simp at hX
  exact reconcile_removes X hnd hne
    (fun e he hid => (hall e he hid).elim Or.inr Or.inl) hok

/-- Witness for C4 at a concrete input: an unfired tracked entry "X"
reappearing as cancelled is removed (and not fired). -/
theorem cancelled_event_removed_witness :
    check_calendar [("X", entX)] [evXCancelled] 0 = some [] ∧
    lookupA [] "X" = none :=
  ⟨by decide,
    cancelled_event_removed [("X", entX)] [evXCancelled] 0 [] "X"
      (by decide) (by decide) (by decide) (by decide)⟩

/-! ### Claim C2 -/

/-- An issued (fired) entry is left untouched by `issue_reminders`. -/
theorem issued_entry_preserved (R : Tracker) (now : Int) :
    ∀ (k : String) (e : Entry), lookupA R k = some e → e.issued = true →
      lookupA (issue_reminders R now).1 k = some e := by
  induction R with
  | nil =>
    intro k e hlk _
    simp [lookupA] at hlk
  | cons hd rest ih =>
    obtain ⟨k1, e1⟩ := hd
    intro k e hlk hiss
    rw [lookupA] at hlk
    by_cases hk : k1 = k
    · rw [if_pos hk, Option.some.injEq] at hlk
      subst hlk
      rw [issue_reminders_cons, if_pos hiss, lookupA, if_pos hk]
    · rw [if_neg hk] at hlk
      rw [issue_reminders_cons]
      by_cases hiss1 : e1.issued = true
      · rw [if_pos hiss1, lookupA, if_neg hk]
        exact ih k e hlk hiss
      · by_cases hdue1 : now ≥ e1.reminderTime
        · rw [if_neg hiss1, if_pos hdue1, lookupA, if_neg hk]
          exact ih k e hlk hiss
        · rw [if_neg hiss1, if_neg hdue1, lookupA, if_neg hk]
          exact ih k e hlk hiss

/-- **C2.**  Fire-at-most-once / idempotence: every fire event emitted by
`issue_reminders` comes from an entry whose fired flag was false (an entry
with `fired = true` is never emitted, and is preserved untouched, so it is
never emitted by any later call either), and a second `issue_reminders`
call at the same `now` with no intervening reconcile emits nothing and
leaves the tracker unchanged. -/
theorem fire_due_idempotent (R : Tracker) (now : Int) :
    (∀ f ∈ (issue_reminders R now).2, ∃ k e, (k, e) ∈ R ∧
        e.issued = false ∧ e.reminderTime ≤ now ∧ f = fireEventOf k e now) ∧
    (∀ (k : String) (e : Entry), lookupA R k = some e → e.issued = true →
      lookupA (issue_reminders R now).1 k = some e) ∧
    issue_reminders (issue_reminders R now).1 now =
      ((issue_reminders R now).1, []) := by
  refine ⟨fire_events_sound R now, issued_entry_preserved R now, ?_⟩
  induction R with
  | nil => rfl
  | cons hd rest ih =>
    obtain ⟨k, e⟩ := hd
    rw [issue_reminders_cons]
    by_cases hiss : e.issued = true
    · rw [if_pos hiss, issue_reminders_cons, if_pos hiss, ih]
    · rw [if_neg hiss]
      by_cases hdue : now ≥ e.reminderTime
      · rw [if_pos hdue, issue_reminders_cons,
          if_pos (show ({ e with issued := true } : Entry).issued = true
            from rfl), ih]
      · rw [if_neg hdue, issue_reminders_cons, if_neg hiss, if_neg hdue, ih]

/-- Witness for C2 at a concrete input: an already-fired entry is
preserved untouched (and, per the other conjuncts, never re-emitted). -/
theorem fire_due_idempotent_witness :
    lookupA (issue_reminders [("F", Entry.mk true 0 600 none none)] 50).1
      "F" = some (Entry.mk true 0 600 none none) :=
  (fire_due_idempotent [("F", Entry.mk true 0 600 none none)] 50).2.1 "F"
    (Entry.mk true 0 600 none none) (by decide) (by decide)

/-! ### Claim C3 -/

/-- **C3** (amended).  `issue_reminders` postcondition: an unfired entry
with `reminder_time <= now` is marked fired and produces exactly one fire
event, whose minutes value is `fdiv (start - now) 60 + 1` — one more than
the floor of the remaining whole minutes, computed from `now` rather than
from the original fire time (this equals rounding up to the next whole
minute except when the remaining time is an exact number of minutes, where
it is one minute more); an entry with `reminder_time > now` is left
unmodified and produces no fire event. -/
theorem fire_due_postcondition (R : Tracker) (now : Int) (k : String)
    (e : Entry) (hnd : (keysOf R).Nodup) (hlk : lookupA R k = some e) :
    (e.issued = false → e.reminderTime ≤ now →
      lookupA (issue_reminders R now).1 k = some { e with issued := true } ∧
      (issue_reminders R now).2.filter (fun f => f.eventId = k) =
        [fireEventOf k e now] ∧
      (fireEventOf k e now).minutes = Int.fdiv (e.start - now) 60 + 1) ∧
    (now < e.reminderTime →
      lookupA (issue_reminders R now).1 k = some e ∧
      (issue_reminders R now).2.filter (fun f => f.eventId = k) = []) := by
  induction R with
  | nil => simp [lookupA] at hlk
  | cons hd rest ih =>
    obtain ⟨k1, e1⟩ := hd
    simp only [keysOf, List.map_cons, List.nodup_cons] at hnd
    by_cases hk : k1 = k
    · subst hk
      rw [lookupA, if_pos rfl, Option.some.injEq] at hlk
      subst hlk
      have hfilrest : (issue_reminders rest now).2.filter
          (fun f => f.eventId = k1) = [] :=
        fire_events_filter_notmem hnd.1
      constructor
      · intro hiss hdue
        rw [issue_reminders_cons, if_neg (by simp [hiss]), if_pos hdue]
        refine ⟨by rw [lookupA, if_pos rfl], ?_, ?_⟩
        · rw [List.filter_cons]
          simp only [fireEventOf, decide_eq_true_eq, if_pos rfl]
          simp [hfilrest]
        · simp [fireEventOf, reminderMins_eq_fdiv]
      · intro hlt
        by_cases hiss : e1.issued = true
        · rw [issue_reminders_cons, if_pos hiss]
          exact ⟨by rw [lookupA, if_pos rfl], hfilrest⟩
        · rw [issue_reminders_cons, if_neg hiss,
            if_neg (show ¬ now ≥ e1.reminderTime from not_le.mpr hlt)]
          exact ⟨by rw [lookupA, if_pos rfl], hfilrest⟩
    · rw [lookupA, if_neg hk] at hlk
      have ihh := ih hnd.2 hlk
      have hhead : ∀ ev : Entry,
          lookupA ((k1, ev) :: (issue_reminders rest now).1) k =
            lookupA (issue_reminders rest now).1 k := by
        intro ev
        rw [lookupA, if_neg hk]
      have hfilhead : ∀ l : List FireEvent,
          (fireEventOf k1 e1 now :: l).filter (fun f => f.eventId = k) =
            l.filter (fun f => f.eventId = k) := by
        intro l
        rw [List.filter_cons]
        simp [fireEventOf, hk]
      constructor
      · intro hiss hdue
        obtain ⟨ha, hb, hc⟩ := ihh.1 hiss hdue
        rw [issue_reminders_cons]
        by_cases hiss1 : e1.issued = true
        · rw [if_pos hiss1]
          exact ⟨(hhead e1).trans ha, hb, hc⟩
        · by_cases hdue1 : now ≥ e1.reminderTime
          · rw [if_neg hiss1, if_pos hdue1]
            exact ⟨(hhead _).trans ha, (hfilhead _).trans hb, hc⟩
          · rw [if_neg hiss1, if_neg hdue1]
            exact ⟨(hhead e1).trans ha, hb, hc⟩
      · intro hlt
        obtain ⟨ha, hb⟩ := ihh.2 hlt
        rw [issue_reminders_cons]
        by_cases hiss1 : e1.issued = true
        · rw [if_pos hiss1]
          exact ⟨(hhead e1).trans ha, hb⟩
        · by_cases hdue1 : now ≥ e1.reminderTime
          · rw [if_neg hiss1, if_pos hdue1]
            exact ⟨(hhead _).trans ha, (hfilhead _).trans hb⟩
          · rw [if_neg hiss1, if_neg hdue1]
            exact ⟨(hhead e1).trans ha, hb⟩

/-- **C3 counterexample.**  The claim's "rounded up to the next whole
minute" is false on the code: an entry due now with start exactly 600
seconds (10 whole minutes) away fires with `minutes_until_start = 11`,
while the ceiling of 600 seconds in minutes is 10. -/
theorem fire_due_ceiling_cex :
    (issue_reminders [("X", ⟨false, 0, 600, none, none⟩)] 0).2.map
        FireEvent.minutes = [11] ∧
    specCeilMinutes 600 = 10 := by
  exact ⟨by decide, by decide⟩

/-- Witness for C3's amended theorem at a concrete input. -/
theorem fire_due_postcondition_witness :
    (lookupA (issue_reminders [("X", entX)] 500).1 "X" =
        some { entX with issued := true } ∧
      (issue_reminders [("X", entX)] 500).2.filter
          (fun f => f.eventId = "X") = [fireEventOf "X" entX 500] ∧
      (fireEventOf "X" entX 500).minutes = Int.fdiv (entX.start - 500) 60 + 1) :=
  (fire_due_postcondition [("X", entX)] 500 "X" entX (by decide)
      (by decide)).1 (by decide) (by decide)

/-! ### Mail-poller lemmas -/

theorem optLE_refl (a : Option Int) : optLE a a := by
  cases a <;> simp [optLE]

theorem optLE_trans {a b c : Option Int} (h1 : optLE a b) (h2 : optLE b c) :
    optLE a c := by
  cases a with
  | none => trivial
  | some x =>
    cases b with
    | none => exact absurd h1 (by simp [optLE])
    | some y =>
      cases c with
      | none => exact absurd h2 (by simp [optLE])
      | some z => exact le_trans h1 h2

/-- Evaluation of `check_mail` when the unread-count fetch fails. -/
theorem check_mail_num_error_eq (s : MailState) (q : Bool) (u : Unit)
    (mr : Except Unit (List Message)) :
    check_mail s q (.error u) mr =
      if s.retries + 1 ≤ MAX_RETRIES then
        ⟨{ s with retries := s.retries + 1 }, [], .skipped⟩
      else ⟨{ s with retries := s.retries + 1 }, [], .fatal⟩ := rfl

/-- Evaluation of `check_mail` when the count fetch succeeds with a
positive count but the new-messages fetch fails: the counter was reset by
the first success, so it ends at 1 and the cycle is skipped. -/
theorem check_mail_msgs_error_eq (s : MailState) (q : Bool) (n : Nat)
    (u : Unit) (hn : 0 < n) :
    check_mail s q (.ok n) (.error u) =
      ⟨⟨s.check_mail_last, n, 1⟩, statusCmds s n, .skipped⟩ := by
  simp only [check_mail]
  rw [if_pos hn, if_pos (by decide : 0 + 1 ≤ MAX_RETRIES)]

/-- Evaluation of `check_mail` when both fetches succeed and the count is
positive. -/
theorem check_mail_ok_ok_eq (s : MailState) (q : Bool) (n : Nat)
    (msgs : List Message) (hn : 0 < n) :
    check_mail s q (.ok n) (.ok msgs) =
      ⟨⟨updateLast s.check_mail_last msgs, n, 0⟩,
        statusCmds s n ++ popupCmds s.check_mail_last q msgs ++
          [IconCmd.flush], .completed⟩ := by
  simp only [check_mail]
  rw [if_pos hn]

/-- Evaluation of `check_mail` when the count fetch succeeds with zero
unread: the messages fetch is not attempted. -/
theorem check_mail_zero_eq (s : MailState) (q : Bool)
    (mr : Except Unit (List Message)) :
    check_mail s q (.ok 0) mr =
      ⟨⟨s.check_mail_last, 0, 0⟩, statusCmds s 0 ++ [IconCmd.flush],
        .completed⟩ := rfl

/-- The high-water update never decreases the mark. -/
theorem updateLast_mono (last : Option Int) (msgs : List Message) :
    optLE last (updateLast last msgs) := by
  cases msgs with
  | nil => exact optLE_refl _
  | cons m rest =>
    cases last with
    | none => trivial
    | some t =>
      show optLE (some t) (if mostRecent m.receivedDateTime rest > t then
        some (mostRecent m.receivedDateTime rest) else some t)
      split
      · rename_i hgt
        exact le_of_lt hgt
      · exact le_refl t

/-- One `check_mail` call never decreases the high-water mark. -/
theorem check_mail_last_mono (s : MailState) (q : Bool)
    (nr : Except Unit Nat) (mr : Except Unit (List Message)) :
    optLE s.check_mail_last (check_mail s q nr mr).state.check_mail_last := by
  rcases nr with u | n
  · rw [check_mail_num_error_eq]
    split
    · exact optLE_refl _
    · exact optLE_refl _
  · by_cases hn : 0 < n
    · rcases mr with u | msgs
      · rw [check_mail_msgs_error_eq s q n u hn]
        exact optLE_refl _
      · rw [check_mail_ok_ok_eq s q n msgs hn]
        exact updateLast_mono _ _
    · have hn0 : n = 0 := Nat.eq_zero_of_not_pos hn
      subst hn0
      rw [check_mail_zero_eq]
      exact optLE_refl _

/-- The value the code computes over the message list is its maximum
timestamp. -/
theorem mostRecent_spec (cur : Int) (l : List Message) :
    (mostRecent cur l = cur ∨
      ∃ m ∈ l, mostRecent cur l = m.receivedDateTime) ∧
    cur ≤ mostRecent cur l ∧
    (∀ m ∈ l, m.receivedDateTime ≤ mostRecent cur l) := by
  induction l generalizing cur with
  | nil => simp [mostRecent]
  | cons m rest ih =>
    rw [mostRecent]
    by_cases h : m.receivedDateTime > cur
    · rw [if_pos h]
      obtain ⟨h1, h2, h3⟩ := ih m.receivedDateTime
      refine ⟨?_, le_trans (le_of_lt h) h2, ?_⟩
      · rcases h1 with h1 | ⟨m1, hm1, he⟩
        · exact Or.inr ⟨m, List.mem_cons_self _ _, h1⟩
        · exact Or.inr ⟨m1, List.mem_cons_of_mem _ hm1, he⟩
      · intro m1 hm1
        rcases List.mem_cons.mp hm1 with hh | hh
        · rw [hh]
          exact h2
        · exact h3 m1 hh
    · rw [if_neg h]
      obtain ⟨h1, h2, h3⟩ := ih cur
      refine ⟨?_, h2, ?_⟩
      · rcases h1 with h1 | ⟨m1, hm1, he⟩
        · exact Or.inl h1
        · exact Or.inr ⟨m1, List.mem_cons_of_mem _ hm1, he⟩
      intro m1 hm1
      rcases List.mem_cons.mp hm1 with hh | hh
      · rw [hh]
        exact le_trans (not_lt.mp h) h2
      · exact h3 m1 hh

/-! ### Claim C5 -/

/-- **C5.**  High-water-mark monotonicity: across any sequence of polls the
poller's `check_mail_last` never decreases; and a successful non-empty poll
advances it to the maximum `receivedDateTime` of the messages just
processed, but only when that maximum is strictly greater than the stored
value (`mostRecent` is shown to be that maximum). -/
theorem last_seen_monotone (s : MailState) (polls : List PollInput) :
    optLE s.check_mail_last (runPolls s polls).check_mail_last ∧
    (∀ (q : Bool) (n : Nat) (m : Message) (rest : List Message),
      0 < n →
      (mostRecent m.receivedDateTime rest
          ∈ (m :: rest).map Message.receivedDateTime ∧
        ∀ t ∈ (m :: rest).map Message.receivedDateTime,
          t ≤ mostRecent m.receivedDateTime rest) ∧
      (check_mail s q (.ok n) (.ok (m :: rest))).state.check_mail_last =
        match s.check_mail_last with
        | none => some (mostRecent m.receivedDateTime rest)
        | some t =>
          if mostRecent m.receivedDateTime rest > t then
            some (mostRecent m.receivedDateTime rest)
          else some t) := by
  constructor
  · induction polls generalizing s with
    | nil => exact optLE_refl _
    | cons p rest ih =>
      exact optLE_trans
        (check_mail_last_mono s p.quiet p.numResult p.msgsResult) (ih _)
  · intro q n m rest hn
    constructor
    · obtain ⟨h1, h2, h3⟩ := mostRecent_spec m.receivedDateTime rest
      constructor
      · rcases h1 with h1 | ⟨m1, hm1, he⟩
        · rw [h1]
          exact List.mem_map_of_mem _ (List.mem_cons_self _ _)
        · rw [he]
          exact List.mem_map_of_mem _ (List.mem_cons_of_mem _ hm1)
      · intro t ht
        obtain ⟨m1, hm1, he⟩ := List.mem_map.mp ht
        rcases List.mem_cons.mp hm1 with hh | hh
        · rw [← he, hh]
          exact h2
        · rw [← he]
          exact h3 m1 hh
    · rw [check_mail_ok_ok_eq s q n (m :: rest) hn]
      rfl

/-- Witness for C5 at a concrete input (state with mark 99, one message at
timestamp 100). -/
theorem last_seen_monotone_witness :
    (mostRecent (mkMsg 100).receivedDateTime []
        ∈ [mkMsg 100].map Message.receivedDateTime ∧
      ∀ t ∈ [mkMsg 100].map Message.receivedDateTime,
        t ≤ mostRecent (mkMsg 100).receivedDateTime []) ∧
    (check_mail mailS99 false (.ok 1)
        (.ok [mkMsg 100])).state.check_mail_last =
      match mailS99.check_mail_last with
      | none => some (mostRecent (mkMsg 100).receivedDateTime [])
      | some t =>
        if mostRecent (mkMsg 100).receivedDateTime [] > t then
          some (mostRecent (mkMsg 100).receivedDateTime [])
        else some t :=
  (last_seen_monotone mailS99 []).2 false 1 (mkMsg 100) [] (by decide)

/-! ### Claim C6 -/

/-- Every command produced by the popup loop is either the blink-on command
or the popup of a message whose timestamp differs from the stored
high-water mark (the loop `continue`s on an exact match). -/
theorem popupLoop_sound (last : Option Int) :
    ∀ (msgs : List Message) (i : Nat) (c : IconCmd),
      c ∈ popupLoop last i msgs →
      c = IconCmd.blink true ∨
        ∃ m ∈ msgs, last ≠ some m.receivedDateTime ∧ c = msgPopupCmd m := by
  intro msgs
  induction msgs with
  | nil =>
    intro i c hc
    simp [popupLoop] at hc
  | cons m rest ih =>
    intro i c hc
    rw [popupLoop] at hc
    by_cases hdup : last = some m.receivedDateTime
    · rw [if_pos hdup] at hc
      rcases ih (i + 1) c hc with h | ⟨m1, hm1, hne, he⟩
      · exact Or.inl h
      · exact Or.inr ⟨m1, List.mem_cons_of_mem _ hm1, hne, he⟩
    · rw [if_neg hdup] at hc
      by_cases hlim : i = MAIL_POPUP_LIMIT
      · rw [if_pos hlim] at hc
        simp at hc
      · rw [if_neg hlim] at hc
        rcases List.mem_cons.mp hc with h | hc2
        · exact Or.inl h
        · rcases List.mem_cons.mp hc2 with h | hc3
          · exact Or.inr ⟨m, List.mem_cons_self _ _, hdup, h⟩
          · rcases ih (i + 1) c hc3 with h | ⟨m1, hm1, hne, he⟩
            · exact Or.inl h
            · exact Or.inr ⟨m1, List.mem_cons_of_mem _ hm1, hne, he⟩

theorem statusCmds_no_popup {s : MailState} {n : Nat} {c : IconCmd}
    (hc : c ∈ statusCmds s n) : isPopupCmd c = false := by
  rw [statusCmds] at hc
  rcases List.mem_cons.mp hc with h | h
  · rw [h]
    rfl
  · split at h
    · rw [List.mem_singleton.mp h]
      rfl
    · simp at h

theorem popupCmds_mem {last : Option Int} {q : Bool} {msgs : List Message}
    {c : IconCmd} (hc : c ∈ popupCmds last q msgs) :
    c ∈ popupLoop last 0 msgs ∨ c = IconCmd.popupFurther := by
  rw [popupCmds] at hc
  split at hc
  · rcases List.mem_append.mp hc with h | h
    · exact Or.inl h
    · split at h
      · exact Or.inr (List.mem_singleton.mp h)
      · simp at h
  · simp at hc

/-- Any individual popup command in a completed poll's output comes from
the popup loop. -/
theorem check_mail_popup_mem {s : MailState} {q : Bool} {n : Nat}
    {msgs : List Message} {c : IconCmd}
    (hc : c ∈ (check_mail s q (.ok n) (.ok msgs)).cmds)
    (hp : isPopupCmd c = true) :
    c ∈ popupLoop s.check_mail_last 0 msgs := by
  by_cases hn : 0 < n
  · rw [check_mail_ok_ok_eq s q n msgs hn] at hc
    have hc2 : c ∈ statusCmds s n ++ popupCmds s.check_mail_last q msgs ++
        [IconCmd.flush] := hc
    rcases List.mem_append.mp hc2 with h | h
    · rcases List.mem_append.mp h with h | h
      · rw [statusCmds_no_popup h] at hp
        exact Bool.noConfusion hp
      · rcases popupCmds_mem h with h | h
        · exact h
        · rw [h] at hp
          exact Bool.noConfusion hp
    · rw [List.mem_singleton.mp h] at hp
      exact Bool.noConfusion hp
  · have hn0 : n = 0 := Nat.eq_zero_of_not_pos hn
    subst hn0
    rw [check_mail_zero_eq] at hc
    have hc2 : c ∈ statusCmds s 0 ++ [IconCmd.flush] := hc
    rcases List.mem_append.mp hc2 with h | h
    · rw [statusCmds_no_popup h] at hp
      exact Bool.noConfusion hp
    · rw [List.mem_singleton.mp h] at hp
      exact Bool.noConfusion hp

/-- **C6.**  Mail dedup: in a non-quiet poll, every individual popup
command in the output is the popup of some input message whose
`receivedDateTime` differs from the stored `check_mail_last`; a message
whose timestamp equals the high-water mark is skipped and never surfaced. -/
theorem mail_dedup (s : MailState) (n : Nat) (msgs : List Message)
    (c : IconCmd) (sn su ad : String)
    (hc : c ∈ (check_mail s false (.ok n) (.ok msgs)).cmds)
    (hpop : c = IconCmd.popup sn su ad) :
    ∃ m ∈ msgs, s.check_mail_last ≠ some m.receivedDateTime ∧
      c = msgPopupCmd m := by
  have hp : isPopupCmd c = true := by
    rw [hpop]
    rfl
  have hin := check_mail_popup_mem hc hp
  rcases popupLoop_sound s.check_mail_last msgs 0 c hin with h | h
  · rw [hpop] at h
    exact absurd h (by simp)
  · exact h

/-- Witness for C6 at a concrete input: with mark 99 and messages at
timestamps 99 and 100, the surfaced popup comes from the message at 100. -/
theorem mail_dedup_witness :
    ∃ m ∈ [mkMsg 99, mkMsg 100],
      mailS99.check_mail_last ≠ some m.receivedDateTime ∧
      msgPopupCmd (mkMsg 100) = msgPopupCmd m :=
  mail_dedup mailS99 2 [mkMsg 99, mkMsg 100] (msgPopupCmd (mkMsg 100))
    "sender" "subj" "s@x" (by decide) (by decide)

/-! ### Claim C7 -/

/-- **C7 evaluation at the failing input.**  A non-quiet poll with exactly
4 new non-duplicate messages produces 4 individual popups AND the
"Plus further message(s)..." summary popup, because the source tests
`len(messages) >= MAIL_POPUP_LIMIT` rather than a strict inequality —
contradicting the claim (and the code's own comment) that the summary
appears only when more messages arrived than the cap. -/
theorem popup_cap_summary_at_four :
    ((check_mail mailS0 false (.ok 4)
        (.ok [mkMsg 1, mkMsg 2, mkMsg 3, mkMsg 4])).cmds.filter
      isPopupCmd).length = 4 ∧
    IconCmd.popupFurther ∈ (check_mail mailS0 false (.ok 4)
        (.ok [mkMsg 1, mkMsg 2, mkMsg 3, mkMsg 4])).cmds := by
  exact ⟨by decide, by decide⟩

/-! ### Claim C8 -/

/-- **C8.**  Retry policy: a transient failure increments the shared
counter by one and skips the rest of the cycle, a success resets it to
zero, and the shutdown (cleanup) path is taken exactly when the counter
exceeds `MAX_RETRIES = 5`; `check_mail`'s two fetch sites follow
`retryStep` (for the second site the counter was just reset by the first
site's success, so it ends at 1 and never shuts down there). -/
theorem retry_policy (r : Nat) :
    (retryStep r .failure).1 = r + 1 ∧
    ((retryStep r .failure).2 = RetryAction.shutdown ↔ MAX_RETRIES < r + 1) ∧
    ((retryStep r .failure).2 = RetryAction.skipCycle ↔ r + 1 ≤ MAX_RETRIES) ∧
    retryStep r .success = (0, RetryAction.proceed) ∧
    (∀ (s : MailState) (q : Bool) (u : Unit)
        (mr : Except Unit (List Message)),
      s.retries = r →
      (check_mail s q (.error u) mr).state.retries = r + 1 ∧
      (check_mail s q (.error u) mr).cmds = [] ∧
      ((check_mail s q (.error u) mr).outcome = MailOutcome.fatal ↔
        MAX_RETRIES < r + 1) ∧
      ((check_mail s q (.error u) mr).outcome = MailOutcome.skipped ↔
        r + 1 ≤ MAX_RETRIES)) ∧
    (∀ (s : MailState) (q : Bool) (n : Nat) (msgs : List Message),
      (check_mail s q (.ok n) (.ok msgs)).state.retries = 0) := by
  refine ⟨rfl, ?_, ?_, rfl, ?_, ?_⟩
  · by_cases h : r + 1 ≤ MAX_RETRIES
    · simp only [retryStep, if_pos h]
      constructor
      · intro hh
        exact absurd hh (by simp)
      · intro hh
        omega
    · simp only [retryStep, if_neg h]
      constructor
      · intro _
        omega
      · intro _
        trivial
  · by_cases h : r + 1 ≤ MAX_RETRIES
    · simp only [retryStep, if_pos h]
      exact ⟨fun _ => h, fun _ => trivial⟩
    · simp only [retryStep, if_neg h]
      constructor
      · intro hh
        exact absurd hh (by simp)
      · intro hh
        exact absurd hh h
  · intro s q u mr hr
    rw [check_mail_num_error_eq, hr]
    by_cases h : r + 1 ≤ MAX_RETRIES
    · rw [if_pos h]
      refine ⟨rfl, rfl, ?_, ?_⟩
      · constructor
        · intro hh
          exact absurd hh (by simp)
        · intro hh
          omega
      · exact ⟨fun _ => h, fun _ => rfl⟩
    · rw [if_neg h]
      refine ⟨rfl, rfl, ?_, ?_⟩
      · exact ⟨fun _ => by omega, fun _ => rfl⟩
      · constructor
        · intro hh
          exact absurd hh (by simp)
        · intro hh
          exact absurd hh h
  · intro s q n msgs
    by_cases hn : 0 < n
    · rw [check_mail_ok_ok_eq s q n msgs hn]
    · have hn0 : n = 0 := Nat.eq_zero_of_not_pos hn
      subst hn0
      rw [check_mail_zero_eq]

/-- Witness for C8 at a concrete input (counter 0, failed count fetch). -/
theorem retry_policy_witness :
    (check_mail mailS0 false (.error ()) (.ok [])).state.retries = 0 + 1 ∧
    (check_mail mailS0 false (.error ()) (.ok [])).cmds = [] ∧
    ((check_mail mailS0 false (.error ()) (.ok [])).outcome =
        MailOutcome.fatal ↔ MAX_RETRIES < 0 + 1) ∧
    ((check_mail mailS0 false (.error ()) (.ok [])).outcome =
        MailOutcome.skipped ↔ 0 + 1 ≤ MAX_RETRIES) :=
  (retry_policy 0).2.2.2.2.1 mailS0 false () (.ok []) (by decide)

/-! ### Claim C10 -/

/-- **C10.**  The mail poll is not atomic on a transient failure: when the
unread-count fetch succeeds (with a positive count) and the subsequent
new-messages fetch fails, the cycle is skipped with `n_msgs_last` already
updated and the icon count command already sent, while `check_mail_last`
is left unchanged and the final activation (`flush`) is never sent. -/
theorem mail_poll_nonatomic_skip (s : MailState) (q : Bool) (n : Nat)
    (hn : 0 < n) :
    (check_mail s q (.ok n) (.error ())).outcome = MailOutcome.skipped ∧
    (check_mail s q (.ok n) (.error ())).state.n_msgs_last = n ∧
    (check_mail s q (.ok n) (.error ())).state.check_mail_last =
      s.check_mail_last ∧
    (check_mail s q (.ok n) (.error ())).state.retries = 1 ∧
    IconCmd.nMsgs n ∈ (check_mail s q (.ok n) (.error ())).cmds ∧
    IconCmd.flush ∉ (check_mail s q (.ok n) (.error ())).cmds := by
  rw [check_mail_msgs_error_eq s q n () hn]
  refine ⟨rfl, rfl, rfl, rfl, ?_, ?_⟩
  · show IconCmd.nMsgs n ∈ statusCmds s n
    rw [statusCmds]
    exact List.mem_cons_self _ _
  · show IconCmd.flush ∉ statusCmds s n
    rw [statusCmds]
    intro hmem
    rcases List.mem_cons.mp hmem with h | h
    · exact IconCmd.noConfusion h
    · split at h
      · exact IconCmd.noConfusion (List.mem_singleton.mp h)
      · simp at h

/-- Witness for C10 at a concrete input. -/
theorem mail_poll_nonatomic_skip_witness :
    (check_mail mailS99 false (.ok 5) (.error ())).outcome =
        MailOutcome.skipped ∧
    (check_mail mailS99 false (.ok 5) (.error ())).state.n_msgs_last = 5 ∧
    (check_mail mailS99 false (.ok 5) (.error ())).state.check_mail_last =
      mailS99.check_mail_last ∧
    (check_mail mailS99 false (.ok 5) (.error ())).state.retries = 1 ∧
    IconCmd.nMsgs 5 ∈ (check_mail mailS99 false (.ok 5) (.error ())).cmds ∧
    IconCmd.flush ∉ (check_mail mailS99 false (.ok 5) (.error ())).cmds :=
  mail_poll_nonatomic_skip mailS99 false 5 (by decide)

/-! ### Popup-line escaping lemmas -/

theorem splitUnesc_length :
    ∀ (l : List Char) (p : Option Char) (acc : List Char),
      (splitUnesc p acc l).length = countSep p l + 1 := by
  intro l
  induction l with
  | nil =>
    intro p acc
    simp [splitUnesc, countSep]
  | cons c rest ih =>
    intro p acc
    rw [splitUnesc, countSep]
    by_cases h : c = ':' ∧ p ≠ some '\\'
    · rw [if_pos h, if_pos h]
      simp only [List.length_cons, ih]
      omega
    · rw [if_neg h, if_neg h]
      simp only [ih]
      omega

theorem lastc_append :
    ∀ (l1 l2 : List Char) (p : Option Char),
      lastc p (l1 ++ l2) = lastc (lastc p l1) l2 := by
  intro l1
  induction l1 with
  | nil =>
    intro l2 p
    rfl
  | cons c rest ih =>
    intro l2 p
    rw [List.cons_append, lastc, lastc, ih]

theorem countSep_append :
    ∀ (l1 l2 : List Char) (p : Option Char),
      countSep p (l1 ++ l2) =
        countSep p l1 + countSep (lastc p l1) l2 := by
  intro l1
  induction l1 with
  | nil =>
    intro l2 p
    rw [List.nil_append, countSep, lastc]
    omega
  | cons c rest ih =>
    intro l2 p
    rw [List.cons_append, countSep, countSep, lastc, ih]
    omega

/-- Escaped text contributes no separators, and (for backslash-free input
following a non-backslash character) never ends in a backslash. -/
theorem countSep_escape :
    ∀ (s : List Char) (p : Option Char), '\\' ∉ s → p ≠ some '\\' →
      countSep p (escapeColons s) = 0 ∧
      lastc p (escapeColons s) ≠ some '\\' := by
  intro s
  induction s with
  | nil =>
    intro p h hp
    exact ⟨rfl, hp⟩
  | cons c rest ih =>
    intro p h hp
    have hc : c ≠ '\\' := fun hh => h (hh ▸ List.mem_cons_self _ _)
    have hrest : '\\' ∉ rest := fun hh => h (List.mem_cons_of_mem _ hh)
    by_cases hcol : c = ':'
    · subst hcol
      rw [escapeColons, if_pos rfl, countSep, countSep]
      rw [if_neg (by simp), if_neg (by simp)]
      obtain ⟨ha, hb⟩ := ih (some ':') hrest (by simp)
      refine ⟨by omega, ?_⟩
      rw [lastc, lastc]
      exact hb
    · rw [escapeColons, if_neg hcol, countSep]
      rw [if_neg (fun hh => hcol hh.1)]
      obtain ⟨ha, hb⟩ := ih (some c) hrest (by simp [hc])
      refine ⟨by omega, ?_⟩
      rw [lastc]
      exact hb

theorem countSep_no_colon :
    ∀ (a : List Char) (p : Option Char), ':' ∉ a → countSep p a = 0 := by
  intro a
  induction a with
  | nil =>
    intro p _
    rfl
  | cons c rest ih =>
    intro p h
    have hc : c ≠ ':' := fun hh => h (hh ▸ List.mem_cons_self _ _)
    rw [countSep, if_neg (fun hh => hc hh.1)]
    simp [ih (some c) (fun hh => h (List.mem_cons_of_mem _ hh))]

/-! ### Claim C9 -/

/-- **C9** (amended).  Popup-line field structure: the sender display name
and the subject are colon-escaped before joining (so colons inside them do
not change the field structure), but the address field is interpolated
unescaped; the line splits into exactly the 4 intended fields provided the
address contains no colon (and neither escaped field smuggles in a
backslash, which the protocol never escapes). -/
theorem popup_line_escaping (sender subject address : List Char)
    (hs : '\\' ∉ sender) (ht : '\\' ∉ subject) (ha : ':' ∉ address) :
    (splitFields (popupLineChars sender subject address)).length = 4 := by
  have countSep_sep : ∀ {p : Option Char}, p ≠ some '\\' →
      countSep p [':'] = 1 := by
    intro p hp
    rw [countSep, if_pos ⟨rfl, hp⟩, countSep]
  have lastc_single : ∀ (p : Option Char) (c : Char),
      lastc p [c] = some c := fun _ _ => rfl
  have h4 : ∀ p : Option Char, countSep p ['\n'] = 0 := by
    intro p
    rw [countSep, if_neg (by simp), countSep]
  rw [splitFields, splitUnesc_length, popupLineChars]
  have hpre : "popup:".toList = ['p', 'o', 'p', 'u', 'p', ':'] := rfl
  rw [hpre]
  simp only [List.append_assoc]
  have h1 : countSep none ['p', 'o', 'p', 'u', 'p', ':'] = 1 := rfl
  have h2 : lastc none ['p', 'o', 'p', 'u', 'p', ':'] = some ':' := rfl
  obtain ⟨hs1, hs2⟩ := countSep_escape sender (some ':') hs (by simp)
  obtain ⟨ht1, ht2⟩ := countSep_escape subject (some ':') ht (by simp)
  rw [countSep_append, h1, h2, countSep_append, hs1, countSep_append,
    countSep_sep hs2, lastc_single, countSep_append, ht1, countSep_append,
    countSep_sep ht2, lastc_single, countSep_append,
    countSep_no_colon address _ ha, h4]

/-- **C9 counterexample.**  The claim as stated is false for the address
field: a colon inside the address changes the field structure of the line
(5 fields instead of 4), because the address is not escaped. -/
theorem popup_line_colon_cex :
    (splitFields (popupLineChars "Bob".toList "Hi".toList
        "x:y".toList)).length = 5 ∧
    (splitFields (popupLineChars "Bob".toList "Hi".toList
        "xy".toList)).length = 4 := by
  exact ⟨by decide, by decide⟩

/-- Witness for C9's amended theorem: colons inside sender and subject are
escaped and do not break the 4-field structure. -/
theorem popup_line_escaping_witness :
    (splitFields (popupLineChars "B:ob".toList "H:i".toList
        "xy".toList)).length = 4 :=
  popup_line_escaping _ _ _ (by decide) (by decide) (by decide)

end OwaCheck
